import Mathlib

/-!
Verification of the Repository Ranking & Cache Synchronization Engine of the
`raycast-github-repos` extension.

The embedding covers:
* the `Repository` record and the access-time ledger (`github-repositories.tsx`);
* the two-tier comparator and `sortRepositoriesByAccess`;
* the `LocalStorage`-backed cache (`getCachedRepositories`, `setCachedRepositories`,
  `isCacheValid`, `CACHE_DURATION`) and the ledger functions
  (`getAccessTimes`, `updateAccessTime`);
* the `loadRepositories` flow, modelled as a function from the durable store and
  the outcomes of the asynchronous collaborators to the sequence of UI events it
  performs together with the final durable store;
* `calculateUsageScore`, `fetchRepositories` and `fetchRepositoriesByOwner`
  (`services/repositories.ts`).

JS `number` values that only get compared (the usage score carried by a
repository record, and the instants) are idealized as a linearly ordered type
`σ`, instantiated at `ℤ` for concrete evaluation and at `ℝ` for the
transcendental score computation.  JS `Array.prototype.sort` is stable with a
consistent comparator, so it is modelled by a stable sort (insertion sort) with
respect to the "comparator ≤ 0" relation.
-/

namespace GithubRepos

universe u

/-- The `Repository` record of `src/services/repositories.ts` (lines 4-17).
ISO date strings are modelled by the instants they denote; `usageScore`,
`updatedAt` and `pushedAt` are JS numbers idealized as `σ`. -/
structure Repository (σ : Type u) where
  id : String
  name : String
  owner : String
  fullName : String
  description : Option String
  url : String
  stars : Nat
  language : Option String
  updatedAt : σ
  pushedAt : σ
  isPrivate : Bool
  usageScore : σ
deriving DecidableEq

/-- `RepositoryAccessTimes` (`github-repositories.tsx`): a JS object mapping
repository id → last-access timestamp (ms since epoch), modelled as an
association list in key insertion order. -/
abbrev RepositoryAccessTimes := List (String × Int)

/-- JS property read `accessTimes[rid]`: `some` value if the key is present. -/
def lookupTime : RepositoryAccessTimes → String → Option Int
  | [], _ => none
  | (k, v) :: rest, rid => if k = rid then some v else lookupTime rest rid

/-- JS property write `accessTimes[rid] = t`: overwrite an existing key in
place, or append a new key. -/
def setTime : RepositoryAccessTimes → String → Int → RepositoryAccessTimes
  | [], rid, t => [(rid, t)]
  | (k, v) :: rest, rid, t =>
      if k = rid then (rid, t) :: rest else (k, v) :: setTime rest rid t

/-- `accessTimes[repo.id] || 0`: an absent entry counts as timestamp `0`. -/
def accessTimeOf (ts : RepositoryAccessTimes) (rid : String) : Int :=
  (lookupTime ts rid).getD 0

variable {σ : Type u}

/-- The comparator of `sortRepositoriesByAccess` (`github-repositories.tsx`
lines 37-46): `accessLE ts a b = true` iff the JS comparator returns `≤ 0` on
`(a, b)`, i.e. iff a stable sort may keep `a` (weakly) before `b`:
`if (aTime !== bTime) return bTime - aTime; return b.usageScore - a.usageScore`. -/
def accessLE [LinearOrder σ] (ts : RepositoryAccessTimes) (a b : Repository σ) : Bool :=
  let aTime := accessTimeOf ts a.id
  let bTime := accessTimeOf ts b.id
  if aTime ≠ bTime then decide (bTime ≤ aTime) else decide (b.usageScore ≤ a.usageScore)

/-- `accessLE` as a relation, for use with the sorting library. -/
def accessRel [LinearOrder σ] (ts : RepositoryAccessTimes) (a b : Repository σ) : Prop :=
  accessLE ts a b = true

instance [LinearOrder σ] (ts : RepositoryAccessTimes) :
    DecidableRel (accessRel (σ := σ) ts) :=
  fun a b => inferInstanceAs (Decidable (accessLE ts a b = true))

/-- `sortRepositoriesByAccess` (`github-repositories.tsx` lines 33-47):
`[...repos].sort(cmp)` — a stable sort of a copy of the input with the
two-tier comparator, modelled by stable insertion sort w.r.t. `accessRel`. -/
def sortRepositoriesByAccess [LinearOrder σ] (repos : List (Repository σ))
    (ts : RepositoryAccessTimes) : List (Repository σ) :=
  List.insertionSort (accessRel ts) repos

theorem accessRel_iff [LinearOrder σ] (ts : RepositoryAccessTimes) (a b : Repository σ) :
    accessRel ts a b ↔
      accessTimeOf ts b.id < accessTimeOf ts a.id ∨
        (accessTimeOf ts a.id = accessTimeOf ts b.id ∧ b.usageScore ≤ a.usageScore) := by
  by_cases h : accessTimeOf ts a.id = accessTimeOf ts b.id
  · simp [accessRel, accessLE, h]
  · simp only [accessRel, accessLE, if_pos h, ne_eq, h, not_false_eq_true, if_true,
      decide_eq_true_eq, false_and, or_false]
    constructor
    · intro hle
      exact lt_of_le_of_ne hle (fun e => h e.symm)
    · exact le_of_lt

instance [LinearOrder σ] (ts : RepositoryAccessTimes) :
    IsTotal (Repository σ) (accessRel ts) where
  total a b := by
    rcases lt_trichotomy (accessTimeOf ts a.id) (accessTimeOf ts b.id) with h | h | h
    · exact Or.inr ((accessRel_iff ts b a).mpr (Or.inl h))
    · rcases le_total b.usageScore a.usageScore with hs | hs
      · exact Or.inl ((accessRel_iff ts a b).mpr (Or.inr ⟨h, hs⟩))
      · exact Or.inr ((accessRel_iff ts b a).mpr (Or.inr ⟨h.symm, hs⟩))
    · exact Or.inl ((accessRel_iff ts a b).mpr (Or.inl h))

instance [LinearOrder σ] (ts : RepositoryAccessTimes) :
    IsTrans (Repository σ) (accessRel ts) where
  trans a b c hab hbc := by
    rw [accessRel_iff] at hab hbc ⊢
    rcases hab with h1 | ⟨e1, s1⟩ <;> rcases hbc with h2 | ⟨e2, s2⟩
    · exact Or.inl (h2.trans h1)
    · exact Or.inl (e2 ▸ h1)
    · exact Or.inl (lt_of_lt_of_eq h2 e1.symm)
    · exact Or.inr ⟨e1.trans e2, s2.trans s1⟩

/-- The durable `LocalStorage` slots used by the command
(`github-repositories.tsx` lines 203-205): the access-time ledger under
`STORAGE_KEY`, the cached repository list under `CACHE_KEY`, and the cache
timestamp under `CACHE_TIMESTAMP_KEY`.  `none` models an absent key;
JSON (de)serialization of the stored structured values is the identity on
this model. -/
structure Store (σ : Type u) where
  ledger : Option RepositoryAccessTimes
  cacheRepos : Option (List (Repository σ))
  cacheTimestamp : Option Int
deriving DecidableEq

/-- `getAccessTimes` (lines 212-215): `stored ? JSON.parse(stored) : {}`. -/
def getAccessTimes (s : Store σ) : RepositoryAccessTimes :=
  s.ledger.getD []

/-- `updateAccessTime` (lines 217-221): read the ledger, overwrite the id's
timestamp with `now` (`Date.now()`), write the full mapping back. -/
def updateAccessTime (s : Store σ) (rid : String) (now : Int) : Store σ :=
  { s with ledger := some (setTime (getAccessTimes s) rid now) }

/-- `getCachedRepositories` (lines 223-227): `null` when the key is absent. -/
def getCachedRepositories (s : Store σ) : Option (List (Repository σ)) :=
  s.cacheRepos

/-- `setCachedRepositories` (lines 229-232): store the list and `Date.now()`. -/
def setCachedRepositories (s : Store σ) (repos : List (Repository σ)) (now : Int) : Store σ :=
  { s with cacheRepos := some repos, cacheTimestamp := some now }

/-- `CACHE_DURATION` (line 206): 5 minutes in milliseconds. -/
def CACHE_DURATION : Int := 5 * 60 * 1000

/-- `isCacheValid` (lines 234-239): false when no timestamp is stored,
otherwise `Date.now() - parseInt(timestamp) < CACHE_DURATION`. -/
def isCacheValid (s : Store σ) (now : Int) : Bool :=
  match s.cacheTimestamp with
  | none => false
  | some t => decide (now - t < CACHE_DURATION)

/-- The observable steps `loadRepositories` performs: React state updates,
toast display, and the starts of the two network requests (the repository
fetch and the `getAuthenticated` user request). -/
inductive Event (σ : Type u) where
  | setRepositories (rs : List (Repository σ))
  | setAccessTimes (ts : RepositoryAccessTimes)
  | setSortedRepositories (rs : List (Repository σ))
  | setIsLoading (b : Bool)
  | setError (e : Option String)
  | setCurrentUser (u : String)
  | userFetch
  | fetchStart
  | cacheWrite (rs : List (Repository σ))
  | showToast (title msg : String)
deriving DecidableEq

/-- Whether an event initiates network activity. -/
def isNetworkEvent : Event σ → Bool
  | Event.userFetch => true
  | Event.fetchStart => true
  | _ => false

/-- The cached-data part of `loadRepositories` (`github-repositories.tsx`
lines 272-295): when a nonempty cached list exists, expose it (repositories,
access times, and the ranked list), try the user request when the first cached
repository has a truthy owner (swallowing failures), and clear the loading
indicator when the cache is still valid. -/
def cacheEvents [LinearOrder σ] (s : Store σ) (now : Int)
    (userResult : Except String String) : List (Event σ) :=
  match getCachedRepositories s with
  | none => []
  | some rs =>
      if 0 < rs.length then
        Event.setRepositories rs :: Event.setAccessTimes (getAccessTimes s) ::
          Event.setSortedRepositories (sortRepositoriesByAccess rs (getAccessTimes s)) ::
          ((if 0 < rs.length ∧ (rs.head?.map Repository.owner).getD "" ≠ "" then
              Event.userFetch ::
                (match userResult with
                 | Except.ok u => [Event.setCurrentUser u]
                 | Except.error _ => [])
            else []) ++
           (if isCacheValid s now then [Event.setIsLoading false] else []))
      else []

/-- `loadRepositories` (`github-repositories.tsx` lines 267-330), as a function
of the durable store `s`, the current instant `now`, and the outcomes the two
asynchronous collaborators would produce if invoked (`fetchResult` for
`fetchRepositories()`, `userResult` for `getAuthenticated()`; errors carry the
user-facing message).  Returns the ordered list of events performed and the
final durable store: first the cached-data steps (`cacheEvents`), then, when
the cache is stale or absent, the error reset and the fetch; on fetch success
the cache is overwritten and the fetched list exposed ranked; any uncaught
failure sets the error state and shows a toast; the `finally` block clears the
loading indicator. -/
def loadRepositories [LinearOrder σ] (s : Store σ) (now : Int)
    (fetchResult : Except String (List (Repository σ)))
    (userResult : Except String String) :
    List (Event σ) × Store σ :=
  let times := getAccessTimes s
  let cachedRepos := getCachedRepositories s
  if !(isCacheValid s now) || cachedRepos.isNone then
    match fetchResult with
    | Except.ok repos =>
        let s' := setCachedRepositories s repos now
        let fetchEvents : List (Event σ) :=
          Event.setError none :: Event.fetchStart :: Event.cacheWrite repos ::
            Event.setRepositories repos :: Event.setAccessTimes times ::
            Event.setSortedRepositories (sortRepositoriesByAccess repos times) ::
            (if 0 < repos.length then
               Event.userFetch ::
                 (match userResult with
                  | Except.ok u => [Event.setCurrentUser u]
                  | Except.error e =>
                      [Event.setError (some e),
                       Event.showToast "Error loading repositories" e])
             else [])
        (cacheEvents s now userResult ++ fetchEvents ++ [Event.setIsLoading false], s')
    | Except.error e =>
        (cacheEvents s now userResult ++
           [Event.setError none, Event.fetchStart, Event.setError (some e),
            Event.showToast "Error loading repositories" e,
            Event.setIsLoading false], s)
  else
    (cacheEvents s now userResult ++ [Event.setIsLoading false], s)

/-- `calculateUsageScore` (`services/repositories.ts` lines 22-47), over the
idealized reals; `now` (the source's `new Date().getTime()`) is an explicit
parameter, and the date strings are replaced by the instants (ms since epoch)
they denote. -/
noncomputable def calculateUsageScore (stargazers_count : ℕ)
    (updated_at pushed_at : ℝ) (now : ℝ) : ℝ :=
  let stars : ℝ := stargazers_count
  let updated := updated_at
  let pushed := pushed_at
  let daysSinceUpdate := (now - updated) / (1000 * 60 * 60 * 24)
  let daysSincePush := (now - pushed) / (1000 * 60 * 60 * 24)
  let recencyScore :=
    Real.exp (-daysSinceUpdate / 30) * 100 + Real.exp (-daysSincePush / 30) * 100
  stars * 2 + recencyScore

/-- A raw repository object as returned by the GitHub listing API, restricted
to the fields `fetchRepositories` reads.  Optional fields model the `|| ...`
fallbacks in the source; the source's `private` field is `isPrivate` here. -/
structure RawRepo where
  id : Int
  name : String
  owner : Option String
  full_name : String
  description : Option String
  html_url : String
  stargazers_count : Option ℕ
  language : Option String
  updated_at : ℝ
  pushed_at : Option ℝ
  isPrivate : Bool

/-- The per-repository transformation of `fetchRepositories`
(`services/repositories.ts` lines 64-81). -/
noncomputable def transformRepository (now : ℝ) (repo : RawRepo) : Repository ℝ :=
  { id := toString repo.id
    name := repo.name
    owner := repo.owner.getD ""
    fullName := repo.full_name
    description := repo.description
    url := repo.html_url
    stars := repo.stargazers_count.getD 0
    language := repo.language
    updatedAt := repo.updated_at
    pushedAt := repo.pushed_at.getD repo.updated_at
    isPrivate := repo.isPrivate
    usageScore := calculateUsageScore (repo.stargazers_count.getD 0)
      repo.updated_at (repo.pushed_at.getD repo.updated_at) now }

/-- The comparator of `repositories.sort((a, b) => b.usageScore - a.usageScore)`
(lines 83-84 and 126): `a` may stay (weakly) before `b` iff the comparator
returns `≤ 0`. -/
noncomputable def usageScoreRel (a b : Repository ℝ) : Prop :=
  b.usageScore ≤ a.usageScore

noncomputable instance : DecidableRel usageScoreRel :=
  fun a b => inferInstanceAs (Decidable (b.usageScore ≤ a.usageScore))

instance : IsTotal (Repository ℝ) usageScoreRel where
  total a b := le_total b.usageScore a.usageScore

instance : IsTrans (Repository ℝ) usageScoreRel where
  trans _ _ _ hab hbc := le_trans hbc hab

/-- `fetchRepositories` (`services/repositories.ts` lines 52-90): the network
layer is modelled by taking the raw listing as input; the function transforms
each raw repository and sorts the result by usage score, highest first (stable
sort with the score comparator). -/
noncomputable def fetchRepositories (now : ℝ) (rawRepos : List RawRepo) :
    List (Repository ℝ) :=
  List.insertionSort usageScoreRel (rawRepos.map (transformRepository now))

/-- `fetchRepositoriesByOwner` (`services/repositories.ts` lines 95-132): same
transform-then-sort pipeline over the listing of the given owner. -/
noncomputable def fetchRepositoriesByOwner (owner : String) (now : ℝ)
    (rawRepos : List RawRepo) : List (Repository ℝ) :=
  List.insertionSort usageScoreRel (rawRepos.map (transformRepository now))

/-! ### Theorems -/

theorem lookupTime_setTime_self (l : RepositoryAccessTimes) (rid : String) (t : Int) :
    lookupTime (setTime l rid t) rid = some t := by
  induction l with
  | nil => simp [setTime, lookupTime]
  | cons kv rest ih =>
      obtain ⟨k, v⟩ := kv
      by_cases h : k = rid <;> simp [setTime, lookupTime, h, ih]

theorem lookupTime_setTime_other (l : RepositoryAccessTimes) (rid j : String)
    (t : Int) (h : j ≠ rid) :
    lookupTime (setTime l rid t) j = lookupTime l j := by
  induction l with
  | nil => simp [setTime, lookupTime, Ne.symm h]
  | cons kv rest ih =>
      obtain ⟨k, v⟩ := kv
      by_cases hk : k = rid
      · subst hk
        simp [setTime, lookupTime, Ne.symm h]
      · simp [setTime, lookupTime, hk, ih]

/-- C1: in the output of `sortRepositoriesByAccess`, a repository whose
last-access timestamp (an absent entry counting as 0) is strictly greater than
another's occupies an earlier position, regardless of either usage score. -/
theorem sortRepositoriesByAccess_recent_first [LinearOrder σ]
    (ts : RepositoryAccessTimes) (repos : List (Repository σ)) (i j : ℕ)
    (a b : Repository σ)
    (ha : (sortRepositoriesByAccess repos ts)[i]? = some a)
    (hb : (sortRepositoriesByAccess repos ts)[j]? = some b)
    (hab : accessTimeOf ts b.id < accessTimeOf ts a.id) :
    i < j := by
  obtain ⟨hi, ha'⟩ := List.getElem?_eq_some_iff.mp ha
  obtain ⟨hj, hb'⟩ := List.getElem?_eq_some_iff.mp hb
  by_contra hij
  have hs : (sortRepositoriesByAccess repos ts).Sorted (accessRel ts) :=
    List.sorted_insertionSort (accessRel ts) repos
  rcases Nat.lt_or_eq_of_le (Nat.le_of_not_lt hij) with hlt | heq
  · have hrel := hs.rel_get_of_lt (a := ⟨j, hj⟩) (b := ⟨i, hi⟩) hlt
    simp only [List.get_eq_getElem] at hrel
    rw [ha', hb', accessRel_iff] at hrel
    rcases hrel with h | ⟨e, _⟩
    · exact absurd hab (lt_asymm h)
    · exact absurd hab (by rw [e]; exact lt_irrefl _)
  · subst heq
    rw [ha'] at hb'
    subst hb'
    exact absurd hab (lt_irrefl _)

/-- Witness for C1: repository "a" (score 0) was accessed at 100, repository
"b" (score 1000) never; "a" comes first. -/
def wRepo (rid : String) (score : ℤ) : Repository ℤ :=
  { id := rid, name := rid, owner := "u", fullName := "u/" ++ rid,
    description := none, url := "https://example.com", stars := 0,
    language := none, updatedAt := 0, pushedAt := 0, isPrivate := false,
    usageScore := score }

theorem sortRepositoriesByAccess_recent_first_witness :
    (sortRepositoriesByAccess [wRepo "b" 1000, wRepo "a" 0] [("a", 100)])[0]? =
        some (wRepo "a" 0) ∧
    (sortRepositoriesByAccess [wRepo "b" 1000, wRepo "a" 0] [("a", 100)])[1]? =
        some (wRepo "b" 1000) ∧
    accessTimeOf [("a", 100)] (wRepo "b" 1000).id <
        accessTimeOf [("a", 100)] (wRepo "a" 0).id ∧
    (0 : ℕ) < 1 :=
  ⟨by decide, by decide, by decide,
   sortRepositoriesByAccess_recent_first [("a", 100)]
     [wRepo "b" 1000, wRepo "a" 0] 0 1 (wRepo "a" 0) (wRepo "b" 1000)
     (by decide) (by decide) (by decide)⟩

/-- C5: with exactly equal access timestamps (including both absent) the
output is ordered by usage score descending, and full ties keep their original
relative order (stability, stated as sublist preservation). -/
theorem sortRepositoriesByAccess_tie_score_stable [LinearOrder σ]
    (ts : RepositoryAccessTimes) (repos : List (Repository σ)) :
    (∀ (i j : ℕ) (a b : Repository σ),
        (sortRepositoriesByAccess repos ts)[i]? = some a →
        (sortRepositoriesByAccess repos ts)[j]? = some b →
        i < j → accessTimeOf ts a.id = accessTimeOf ts b.id →
        b.usageScore ≤ a.usageScore) ∧
    (∀ a b : Repository σ,
        accessTimeOf ts a.id = accessTimeOf ts b.id →
        a.usageScore = b.usageScore →
        List.Sublist [a, b] repos →
        List.Sublist [a, b] (sortRepositoriesByAccess repos ts)) := by
  constructor
  · intro i j a b ha hb hij heq
    obtain ⟨hi, ha'⟩ := List.getElem?_eq_some_iff.mp ha
    obtain ⟨hj, hb'⟩ := List.getElem?_eq_some_iff.mp hb
    have hs : (sortRepositoriesByAccess repos ts).Sorted (accessRel ts) :=
      List.sorted_insertionSort (accessRel ts) repos
    have hrel := hs.rel_get_of_lt (a := ⟨i, hi⟩) (b := ⟨j, hj⟩) hij
    simp only [List.get_eq_getElem] at hrel
    rw [ha', hb', accessRel_iff] at hrel
    rcases hrel with h | ⟨_, hsc⟩
    · exact absurd h (by rw [heq]; exact lt_irrefl _)
    · exact hsc
  · intro a b heq hsc hsub
    exact List.pair_sublist_insertionSort
      ((accessRel_iff ts a b).mpr (Or.inr ⟨heq, le_of_eq hsc.symm⟩)) hsub

theorem sortRepositoriesByAccess_tie_score_stable_witness :
    ((sortRepositoriesByAccess [wRepo "c" 5, wRepo "d" 3] [])[0]? =
          some (wRepo "c" 5) ∧
      (sortRepositoriesByAccess [wRepo "c" 5, wRepo "d" 3] [])[1]? =
          some (wRepo "d" 3) ∧
      (0 : ℕ) < 1 ∧
      accessTimeOf [] (wRepo "c" 5).id = accessTimeOf [] (wRepo "d" 3).id ∧
      (wRepo "d" 3).usageScore ≤ (wRepo "c" 5).usageScore) ∧
    (List.Sublist [wRepo "e" 7, wRepo "f" 7] [wRepo "e" 7, wRepo "f" 7] ∧
      List.Sublist [wRepo "e" 7, wRepo "f" 7]
        (sortRepositoriesByAccess [wRepo "e" 7, wRepo "f" 7] [])) :=
  ⟨⟨by decide, by decide, by decide, by decide,
    (sortRepositoriesByAccess_tie_score_stable [] [wRepo "c" 5, wRepo "d" 3]).1
      0 1 (wRepo "c" 5) (wRepo "d" 3) (by decide) (by decide) (by decide)
      (by decide)⟩,
   ⟨List.Sublist.refl _,
    (sortRepositoriesByAccess_tie_score_stable [] [wRepo "e" 7, wRepo "f" 7]).2
      (wRepo "e" 7) (wRepo "f" 7) (by decide) (by decide)
      (List.Sublist.refl _)⟩⟩

/-- C6: `sortRepositoriesByAccess` returns a permutation of its input — same
length, and no repository id dropped or duplicated. -/
theorem sortRepositoriesByAccess_perm [LinearOrder σ]
    (ts : RepositoryAccessTimes) (repos : List (Repository σ)) :
    (sortRepositoriesByAccess repos ts).Perm repos ∧
    (sortRepositoriesByAccess repos ts).length = repos.length ∧
    ((sortRepositoriesByAccess repos ts).map Repository.id).Perm
      (repos.map Repository.id) := by
  have h := List.perm_insertionSort (accessRel ts) repos
  exact ⟨h, h.length_eq, h.map _⟩

/-- C9: after `updateAccessTime` (the `recordAccess` of the ledger), a
subsequent `getAccessTimes` maps the id to the new timestamp, leaves every
other id's entry exactly as before, and deletes no entry. -/
theorem updateAccessTime_frame (s : Store σ) (rid : String) (now : Int) :
    lookupTime (getAccessTimes (updateAccessTime s rid now)) rid = some now ∧
    (∀ j : String, j ≠ rid →
        lookupTime (getAccessTimes (updateAccessTime s rid now)) j =
          lookupTime (getAccessTimes s) j) ∧
    (∀ j : String, (lookupTime (getAccessTimes s) j).isSome = true →
        (lookupTime (getAccessTimes (updateAccessTime s rid now)) j).isSome = true) := by
  have hg : getAccessTimes (updateAccessTime s rid now) =
      setTime (getAccessTimes s) rid now := rfl
  refine ⟨?_, ?_, ?_⟩
  · rw [hg, lookupTime_setTime_self]
  · intro j hj
    rw [hg, lookupTime_setTime_other _ _ _ _ hj]
  · intro j hj
    by_cases h : j = rid
    · subst h
      rw [hg, lookupTime_setTime_self]
      rfl
    · rw [hg, lookupTime_setTime_other _ _ _ _ h]
      exact hj

def wLedgerStore : Store ℤ := ⟨some [("x", 5)], none, none⟩

theorem updateAccessTime_frame_witness :
    lookupTime (getAccessTimes (updateAccessTime wLedgerStore "a" 42)) "a" =
        some 42 ∧
    ("x" ≠ "a" ∧
      lookupTime (getAccessTimes (updateAccessTime wLedgerStore "a" 42)) "x" =
        lookupTime (getAccessTimes wLedgerStore) "x") ∧
    ((lookupTime (getAccessTimes wLedgerStore) "x").isSome = true ∧
      (lookupTime (getAccessTimes (updateAccessTime wLedgerStore "a" 42)) "x").isSome =
        true) :=
  ⟨(updateAccessTime_frame wLedgerStore "a" 42).1,
   ⟨by decide, (updateAccessTime_frame wLedgerStore "a" 42).2.1 "x" (by decide)⟩,
   ⟨by decide, (updateAccessTime_frame wLedgerStore "a" 42).2.2 "x" (by decide)⟩⟩

/-- C4: `isCacheValid` returns true iff a fetch timestamp is stored and
`now - fetchedAt < CACHE_DURATION`; the window is 5 minutes, the cache is
still fresh at age 4 min 59 s and stale at age exactly 5 min 0 s. -/
theorem isCacheValid_iff_window (s : Store σ) (now : Int) :
    (isCacheValid s now = true ↔
        ∃ t, s.cacheTimestamp = some t ∧ now - t < CACHE_DURATION) ∧
    CACHE_DURATION = 5 * 60 * 1000 ∧
    (∀ t : Int, s.cacheTimestamp = some t →
        isCacheValid s (t + (4 * 60 + 59) * 1000) = true ∧
        isCacheValid s (t + 5 * 60 * 1000) = false) := by
  refine ⟨?_, rfl, ?_⟩
  · cases h : s.cacheTimestamp with
    | none => simp [isCacheValid, h]
    | some t => simp [isCacheValid, h]
  · intro t ht
    constructor <;> simp [isCacheValid, ht, CACHE_DURATION]

def wCacheTsStore : Store ℤ := ⟨none, none, some 1000⟩

theorem isCacheValid_iff_window_witness :
    wCacheTsStore.cacheTimestamp = some 1000 ∧
    isCacheValid wCacheTsStore (1000 + (4 * 60 + 59) * 1000) = true ∧
    isCacheValid wCacheTsStore (1000 + 5 * 60 * 1000) = false :=
  ⟨rfl, ((isCacheValid_iff_window wCacheTsStore 0).2.2 1000 rfl).1,
   ((isCacheValid_iff_window wCacheTsStore 0).2.2 1000 rfl).2⟩

theorem loadRepositories_fst_suffix [LinearOrder σ] (s : Store σ) (now : Int)
    (fetchResult : Except String (List (Repository σ)))
    (userResult : Except String String) :
    ∃ rest, (loadRepositories s now fetchResult userResult).1 =
      cacheEvents s now userResult ++ rest := by
  cases fetchResult with
  | ok repos =>
      simp only [loadRepositories]
      split
      · exact ⟨_, List.append_assoc _ _ _⟩
      · exact ⟨_, rfl⟩
  | error e =>
      simp only [loadRepositories]
      split
      · exact ⟨_, rfl⟩
      · exact ⟨_, rfl⟩

/-- C2, amended (the claim as stated fails when the stored cached list is
empty): on a load request with a nonempty cached repository list present, the
flow emits the ranked cached list (with the recorded access times) strictly
before any network activity — before the user request and before the external
fetch is initiated. -/
theorem loadRepositories_cache_before_network [LinearOrder σ]
    (s : Store σ) (now : Int)
    (fetchResult : Except String (List (Repository σ)))
    (userResult : Except String String) (rs : List (Repository σ))
    (hc : getCachedRepositories s = some rs) (hne : rs ≠ []) :
    Event.setSortedRepositories (sortRepositoriesByAccess rs (getAccessTimes s)) ∈
      (loadRepositories s now fetchResult userResult).1.takeWhile
        (fun e => !isNetworkEvent e) := by
  have hlen : 0 < rs.length := List.length_pos.mpr hne
  obtain ⟨rest, hrest⟩ :=
    loadRepositories_fst_suffix s now fetchResult userResult
  rw [hrest]
  have hce : cacheEvents s now userResult =
      Event.setRepositories rs :: Event.setAccessTimes (getAccessTimes s) ::
        Event.setSortedRepositories (sortRepositoriesByAccess rs (getAccessTimes s)) ::
        ((if 0 < rs.length ∧ (rs.head?.map Repository.owner).getD "" ≠ "" then
            Event.userFetch ::
              (match userResult with
               | Except.ok u => [Event.setCurrentUser u]
               | Except.error _ => [])
          else []) ++
         (if isCacheValid s now then [Event.setIsLoading false] else [])) := by
    simp [cacheEvents, hc, hlen]
  rw [hce]
  simp [List.takeWhile_cons, isNetworkEvent]

def wCexRepo : Repository ℤ := wRepo "r" 0

def wEmptyCacheStore : Store ℤ := ⟨none, some [], some 0⟩

/-- Counterexample to C2 as stated: a CacheEntry is present in the durable
store (an empty repository list, fetched at 0), the cache is stale at
`now = 300000`, and the flow initiates the fetch without ever exposing the
ranked cached (empty) list first: no such event occurs before the first
network activity. -/
theorem loadRepositories_cache_before_network_cex :
    getCachedRepositories wEmptyCacheStore = some [] ∧
    Event.setSortedRepositories
        (sortRepositoriesByAccess [] (getAccessTimes wEmptyCacheStore)) ∉
      (loadRepositories wEmptyCacheStore 300000 (Except.ok [wCexRepo])
          (Except.ok "u")).1.takeWhile (fun e => !isNetworkEvent e) :=
  ⟨rfl, by decide⟩

def wFullCacheStore : Store ℤ := ⟨some [("r", 7)], some [wCexRepo], some 0⟩

theorem loadRepositories_cache_before_network_witness :
    getCachedRepositories wFullCacheStore = some [wCexRepo] ∧
    [wCexRepo] ≠ ([] : List (Repository ℤ)) ∧
    Event.setSortedRepositories
        (sortRepositoriesByAccess [wCexRepo] (getAccessTimes wFullCacheStore)) ∈
      (loadRepositories wFullCacheStore 1 (Except.ok [])
          (Except.ok "u")).1.takeWhile (fun e => !isNetworkEvent e) :=
  ⟨rfl, by decide,
   loadRepositories_cache_before_network wFullCacheStore 1 (Except.ok [])
     (Except.ok "u") [wCexRepo] rfl (by decide)⟩

theorem cacheWrite_not_mem_cacheEvents [LinearOrder σ] (s : Store σ) (now : Int)
    (userResult : Except String String) (rs : List (Repository σ)) :
    Event.cacheWrite rs ∉ cacheEvents s now userResult := by
  unfold cacheEvents
  cases hc : getCachedRepositories s with
  | none => simp
  | some cs =>
      cases userResult <;>
        by_cases h0 : 0 < cs.length <;>
        by_cases h1 : (cs.head?.map Repository.owner).getD "" = "" <;>
        by_cases h2 : isCacheValid s now <;>
        simp [h0, h1, h2]

/-- C3: a failed fetch leaves the whole durable store — in particular the
CacheEntry — unchanged and never performs the cache write; and whenever the
CacheEntry does change, the fetch succeeded and the entry was replaced
wholesale with the fetched list and the current instant. -/
theorem loadRepositories_failed_fetch_cache [LinearOrder σ] (s : Store σ)
    (now : Int) (fetchResult : Except String (List (Repository σ)))
    (userResult : Except String String) :
    (∀ e, fetchResult = Except.error e →
        (loadRepositories s now fetchResult userResult).2 = s ∧
        ∀ rs, Event.cacheWrite rs ∉ (loadRepositories s now fetchResult userResult).1) ∧
    ((loadRepositories s now fetchResult userResult).2.cacheRepos ≠ s.cacheRepos ∨
        (loadRepositories s now fetchResult userResult).2.cacheTimestamp ≠
          s.cacheTimestamp →
      ∃ rs, fetchResult = Except.ok rs ∧
        (loadRepositories s now fetchResult userResult).2.cacheRepos = some rs ∧
        (loadRepositories s now fetchResult userResult).2.cacheTimestamp =
          some now) := by
  constructor
  · rintro e rfl
    constructor
    · simp only [loadRepositories]
      split
      · rfl
      · rfl
    · intro rs
      simp only [loadRepositories]
      split
      · simp [cacheWrite_not_mem_cacheEvents]
      · simp [cacheWrite_not_mem_cacheEvents]
  · intro hne
    revert hne
    simp only [loadRepositories]
    split
    · cases fetchResult with
      | ok repos => exact fun _ => ⟨repos, rfl, rfl, rfl⟩
      | error e =>
          rintro (h | h) <;> exact absurd rfl h
    · rintro (h | h) <;> exact absurd rfl h

def wNoCacheStore : Store ℤ := ⟨none, none, none⟩

theorem loadRepositories_failed_fetch_cache_witness :
    ((loadRepositories wNoCacheStore 0 (Except.error "boom") (Except.ok "u")).2 =
          wNoCacheStore ∧
      Event.cacheWrite ([] : List (Repository ℤ)) ∉
        (loadRepositories wNoCacheStore 0 (Except.error "boom") (Except.ok "u")).1) ∧
    ((loadRepositories wNoCacheStore 0 (Except.ok [wCexRepo]) (Except.ok "u")).2.cacheRepos ≠
        wNoCacheStore.cacheRepos ∧
      ∃ rs, (Except.ok [wCexRepo] : Except String (List (Repository ℤ))) =
          Except.ok rs ∧
        (loadRepositories wNoCacheStore 0 (Except.ok [wCexRepo]) (Except.ok "u")).2.cacheRepos =
          some rs ∧
        (loadRepositories wNoCacheStore 0 (Except.ok [wCexRepo]) (Except.ok "u")).2.cacheTimestamp =
          some 0) :=
  ⟨⟨((loadRepositories_failed_fetch_cache wNoCacheStore 0 (Except.error "boom")
        (Except.ok "u")).1 "boom" rfl).1,
    ((loadRepositories_failed_fetch_cache wNoCacheStore 0 (Except.error "boom")
        (Except.ok "u")).1 "boom" rfl).2 []⟩,
   ⟨by decide,
    (loadRepositories_failed_fetch_cache wNoCacheStore 0 (Except.ok [wCexRepo])
        (Except.ok "u")).2 (Or.inl (by decide))⟩⟩

/-- C7: with zero stars and both activity instants equal to `now`, the usage
score is exactly 200 (each exponential term is exactly 100, the star term 0). -/
theorem calculateUsageScore_zero_elapsed (now : ℝ) :
    calculateUsageScore 0 now now now = 200 := by
  simp [calculateUsageScore]
  norm_num

/-- C8: for fixed activity instants and `now`, the usage score is monotone
non-decreasing in the star count. -/
theorem calculateUsageScore_mono_stars (s1 s2 : ℕ) (u p n : ℝ) (h : s1 ≤ s2) :
    calculateUsageScore s1 u p n ≤ calculateUsageScore s2 u p n := by
  simp only [calculateUsageScore]
  exact add_le_add_right
    (mul_le_mul_of_nonneg_right (Nat.cast_le.mpr h) (by norm_num)) _

theorem calculateUsageScore_mono_stars_witness :
    (0 : ℕ) ≤ 3 ∧ calculateUsageScore 0 0 0 0 ≤ calculateUsageScore 3 0 0 0 :=
  ⟨by norm_num, calculateUsageScore_mono_stars 0 3 0 0 0 (by norm_num)⟩

/-- C10: `fetchRepositories` and `fetchRepositoriesByOwner` return lists whose
adjacent usage scores are non-increasing — the fetch result is sorted by usage
score, highest first, before any access-time ranking is applied. -/
theorem fetchRepositories_sorted_by_usageScore (now : ℝ)
    (rawRepos : List RawRepo) (owner : String) :
    (fetchRepositories now rawRepos).Chain'
        (fun a b => b.usageScore ≤ a.usageScore) ∧
    (fetchRepositoriesByOwner owner now rawRepos).Chain'
        (fun a b => b.usageScore ≤ a.usageScore) :=
  ⟨List.Pairwise.chain' (List.sorted_insertionSort usageScoreRel _),
   List.Pairwise.chain' (List.sorted_insertionSort usageScoreRel _)⟩

end GithubRepos
